import Mathlib

/-!
Shallow embedding of the lightweight-blockchain repository
(`block.py`, `transaction.py`, `blockchain.py`, `pow_miner.py`).

Hashing in the source is `hashlib.sha256(x.encode()).hexdigest()` applied to
`json.dumps(d, sort_keys=True)` of small documents whose strings are plain
ASCII.  We embed SHA-256 itself (on byte lists, bytes as `Nat`) so that every
hash value in the development is the real digest, and reproduce the
`json.dumps(..., sort_keys=True)` text layout (separators `", "` and `": "`,
keys in sorted order) for the document shapes the code builds.  Python's
unbounded `while` loops are embedded with an explicit fuel argument; loops
returning a value yield `Option`, `none` meaning the fuel ran out before the
loop exited.  Wall-clock readings (`time.time()` and elapsed times) are passed
in as explicit arguments.
-/

set_option maxRecDepth 100000

namespace LBC

/-! ## SHA-256 over byte lists (bytes and 32-bit words as `Nat`) -/

/-- The 32-bit word modulus 2^32. -/
def M32 : Nat := 4294967296

/-- Right-rotate a 32-bit word (`x < 2^32`) by `n` bits. -/
def rotr (n x : Nat) : Nat := ((x >>> n) ||| (x <<< (32 - n))) % M32

def bsig0 (x : Nat) : Nat := rotr 2 x ^^^ rotr 13 x ^^^ rotr 22 x

def bsig1 (x : Nat) : Nat := rotr 6 x ^^^ rotr 11 x ^^^ rotr 25 x

def ssig0 (x : Nat) : Nat := rotr 7 x ^^^ rotr 18 x ^^^ (x >>> 3)

def ssig1 (x : Nat) : Nat := rotr 17 x ^^^ rotr 19 x ^^^ (x >>> 10)

/-- SHA-256 `Ch`; the complement is XOR with the all-ones 32-bit word. -/
def ch (x y z : Nat) : Nat := (x &&& y) ^^^ ((x ^^^ 4294967295) &&& z)

def maj (x y z : Nat) : Nat := (x &&& y) ^^^ (x &&& z) ^^^ (y &&& z)

/-- The 64 SHA-256 round constants (decimal), in four 16-word groups. -/
def Kq1 : List Nat :=
  [1116352408, 1899447441, 3049323471, 3921009573,
   961987163, 1508970993, 2453635748, 2870763221,
   3624381080, 310598401, 607225278, 1426881987,
   1925078388, 2162078206, 2614888103, 3248222580]

def Kq2 : List Nat :=
  [3835390401, 4022224774, 264347078, 604807628,
   770255983, 1249150122, 1555081692, 1996064986,
   2554220882, 2821834349, 2952996808, 3210313671,
   3336571891, 3584528711, 113926993, 338241895]

def Kq3 : List Nat :=
  [666307205, 773529912, 1294757372, 1396182291,
   1695183700, 1986661051, 2177026350, 2456956037,
   2730485921, 2820302411, 3259730800, 3345764771,
   3516065817, 3600352804, 4094571909, 275423344]

def Kq4 : List Nat :=
  [430227734, 506948616, 659060556, 883997877,
   958139571, 1322822218, 1537002063, 1747873779,
   1955562222, 2024104815, 2227730452, 2361852424,
   2428436474, 2756734187, 3204031479, 3329325298]

def K : List Nat := Kq1 ++ Kq2 ++ Kq3 ++ Kq4

/-- Pad a byte message as SHA-256 prescribes: `0x80`, zero bytes until the
length is 56 mod 64, then the 64-bit big-endian bit length. -/
def padBytes (msg : List Nat) : List Nat :=
  let L := msg.length
  let z := (119 - L % 64) % 64
  let bits := 8 * L
  msg ++ [0x80] ++ List.replicate z 0 ++
    [(bits >>> 56) % 256, (bits >>> 48) % 256, (bits >>> 40) % 256, (bits >>> 32) % 256,
     (bits >>> 24) % 256, (bits >>> 16) % 256, (bits >>> 8) % 256, bits % 256]

/-- Group bytes into 32-bit big-endian words. -/
def toWords : List Nat → List Nat
  | a :: b :: c :: d :: rest => (((a * 256 + b) * 256 + c) * 256 + d) :: toWords rest
  | _ => []

/-- Split a word list into 16-word message blocks. -/
def chunks16 : List Nat → List (List Nat)
  | w0 :: w1 :: w2 :: w3 :: w4 :: w5 :: w6 :: w7 ::
    w8 :: w9 :: w10 :: w11 :: w12 :: w13 :: w14 :: w15 :: rest =>
      [w0, w1, w2, w3, w4, w5, w6, w7, w8, w9, w10, w11, w12, w13, w14, w15] :: chunks16 rest
  | _ => []

/-- Extend a 16-word message block with `k` further schedule words. -/
def extendW (w : List Nat) : Nat → List Nat
  | 0 => w
  | k + 1 =>
    let n := w.length
    let x := (ssig1 (w.getD (n - 2) 0) + w.getD (n - 7) 0 +
              ssig0 (w.getD (n - 15) 0) + w.getD (n - 16) 0) % M32
    extendW (w ++ [x]) k

/-- The eight 32-bit working variables of the SHA-256 compression function. -/
structure S8 where
  a : Nat
  b : Nat
  c : Nat
  d : Nat
  e : Nat
  f : Nat
  g : Nat
  h : Nat

/-- One SHA-256 round; `wk` is the (schedule word, round constant) pair. -/
def roundStep (s : S8) (wk : Nat × Nat) : S8 :=
  let t1 := (s.h + bsig1 s.e + ch s.e s.f s.g + wk.2 + wk.1) % M32
  let t2 := (bsig0 s.a + maj s.a s.b s.c) % M32
  ⟨(t1 + t2) % M32, s.a, s.b, s.c, (s.d + t1) % M32, s.e, s.f, s.g⟩

/-- Compress one 16-word message block into the running hash state. -/
def compressBlock (h : S8) (block : List Nat) : S8 :=
  let w := extendW block 48
  let s := (w.zip K).foldl roundStep h
  ⟨(h.a + s.a) % M32, (h.b + s.b) % M32, (h.c + s.c) % M32, (h.d + s.d) % M32,
   (h.e + s.e) % M32, (h.f + s.f) % M32, (h.g + s.g) % M32, (h.h + s.h) % M32⟩

/-- The SHA-256 initial hash value. -/
def initH : S8 :=
  ⟨1779033703, 3144134277, 1013904242, 2773480762, 1359893119, 2600822924, 528734635, 1541459225⟩

/-- SHA-256 digest of a byte message, as eight 32-bit words. -/
def sha256Words (msg : List Nat) : List Nat :=
  let hh := (chunks16 (toWords (padBytes msg))).foldl compressBlock initH
  [hh.a, hh.b, hh.c, hh.d, hh.e, hh.f, hh.g, hh.h]

/-- Lower-case hex digit for a value below 16. -/
def hexDigit (n : Nat) : Char := if n < 10 then Char.ofNat (48 + n) else Char.ofNat (87 + n)

/-- The eight hex characters of one 32-bit word, most significant first. -/
def word8hex (w : Nat) : List Char :=
  [hexDigit ((w >>> 28) % 16), hexDigit ((w >>> 24) % 16), hexDigit ((w >>> 20) % 16),
   hexDigit ((w >>> 16) % 16), hexDigit ((w >>> 12) % 16), hexDigit ((w >>> 8) % 16),
   hexDigit ((w >>> 4) % 16), hexDigit (w % 16)]

/-- Hex SHA-256 digest of an ASCII string, i.e. Python's
`hashlib.sha256(s.encode()).hexdigest()` (each char's code point is its byte). -/
def sha256hex (s : String) : String :=
  String.mk (((sha256Words (s.data.map Char.toNat)).map word8hex).flatten)

/-! ## JSON documents and `json.dumps(..., sort_keys=True)`

The documents the source serializes are built from strings (no characters
needing escapes), integers, `None`, lists and dicts.  `Json.obj` lists its
key/value pairs in the sorted key order in which `json.dumps(..., sort_keys=True)`
emits them; every object literal below is written sorted. -/

inductive Json where
  | null : Json
  | str : String → Json
  | int : Int → Json
  | arr : List Json → Json
  | obj : List (String × Json) → Json

/-- Decimal digits of a positive number; the first argument is fuel (`n` itself
is always enough fuel for `n`'s digits). -/
def natDigitsAux : Nat → Nat → List Char
  | 0, _ => []
  | fuel + 1, n => if n = 0 then [] else natDigitsAux fuel (n / 10) ++ [hexDigit (n % 10)]

/-- Decimal rendering of a natural number. -/
def natDecimal (n : Nat) : String := if n = 0 then "0" else String.mk (natDigitsAux n n)

/-- Decimal rendering of an integer, as Python prints an `int`. -/
def intDecimal : Int → String
  | .ofNat n => natDecimal n
  | .negSucc m => "-" ++ natDecimal (m + 1)

/-- Comma-join with the `", "` separator `json.dumps` uses by default. -/
def joinComma : List String → String
  | [] => ""
  | [s] => s
  | s :: rest => s ++ ", " ++ joinComma rest

/-- Render a document as `json.dumps(..., sort_keys=True)` prints it, with
fuel bounding the nesting depth. -/
def Json.renderF : Nat → Json → String
  | _, .null => "null"
  | _, .str s => "\"" ++ s ++ "\""
  | _, .int i => intDecimal i
  | fuel + 1, .arr xs => "[" ++ joinComma (xs.map (Json.renderF fuel)) ++ "]"
  | fuel + 1, .obj kvs =>
      "\x7b" ++ joinComma (kvs.map (fun kv => "\"" ++ kv.1 ++ "\": " ++ Json.renderF fuel kv.2)) ++ "\x7d"
  | 0, .arr _ => ""
  | 0, .obj _ => ""

/-- Render a document as `json.dumps(..., sort_keys=True)` prints it.  The
fixed fuel bounds the nesting depth; no document in this development comes
anywhere near it. -/
def Json.render (j : Json) : String := Json.renderF 1000000 j

/-! ## Python string operations used by the source -/

/-- The string `'0' * d`. -/
def zeros (d : Nat) : String := String.mk (List.replicate d '0')

/-- Python's slice `s[:n]`. -/
def pySlice (n : Nat) (s : String) : String := String.mk (s.data.take n)

/-- Python's `s.startswith(p)`. -/
def pyStartswith (p s : String) : Bool := p.data.isPrefixOf s.data

/-! ## `transaction.py`

`device_id` is optional in the source (`None` serializes as JSON `null`);
timestamps are clock readings passed in explicitly. -/

structure Transaction where
  content : Json
  timestamp : Int
  device_id : Option String
  transaction_id : String

/-- JSON value a possibly absent device id serializes to. -/
def optStr : Option String → Json
  | none => Json.null
  | some s => Json.str s

/-- The string `Transaction.calculate_transaction_id` hashes:
`json.dumps({"content": ..., "timestamp": ..., "device_id": ...}, sort_keys=True)`. -/
def txIdString (content : Json) (timestamp : Int) (device_id : Option String) : String :=
  Json.render (.obj [("content", content), ("device_id", optStr device_id),
                     ("timestamp", .int timestamp)])

/-- `Transaction.calculate_transaction_id`. -/
def Transaction.calculate_transaction_id (t : Transaction) : String :=
  sha256hex (txIdString t.content t.timestamp t.device_id)

/-- The `Transaction.__init__` constructor: stores the fields and derives
`transaction_id` from them. -/
def Transaction.make (content : Json) (timestamp : Int) (device_id : Option String) :
    Transaction :=
  let t0 : Transaction := ⟨content, timestamp, device_id, ""⟩
  { t0 with transaction_id := t0.calculate_transaction_id }

/-- `Transaction.to_dict`: the four public fields as a JSON mapping
(keys listed in the sorted order `json.dumps(..., sort_keys=True)` emits). -/
def Transaction.to_dict (t : Transaction) : Json :=
  .obj [("content", t.content), ("device_id", optStr t.device_id),
        ("timestamp", .int t.timestamp), ("transaction_id", .str t.transaction_id)]

/-- `Transaction.from_dict`: rebuilds from the four stored fields, then
overwrites `transaction_id` with the stored one verbatim. -/
def Transaction.from_dict (transaction_id : String) (content : Json) (timestamp : Int)
    (device_id : Option String) : Transaction :=
  { Transaction.make content timestamp device_id with transaction_id := transaction_id }

/-! ## `block.py` -/

structure Block where
  index : Nat
  timestamp : Int
  data : Json
  previous_hash : String
  device_id : String
  nonce : Nat
  hash : String

/-- The string `Block.calculate_hash` hashes: `json.dumps` of the six
non-`hash` fields with sorted keys. -/
def Block.blockString (b : Block) : String :=
  Json.render (.obj [("data", b.data), ("device_id", .str b.device_id),
                     ("index", .int b.index), ("nonce", .int b.nonce),
                     ("previous_hash", .str b.previous_hash),
                     ("timestamp", .int b.timestamp)])

/-- `Block.calculate_hash`. -/
def Block.calculate_hash (b : Block) : String := sha256hex b.blockString

/-- The `Block.__init__` constructor: `nonce = 0`, then `hash` is computed
over the current fields. -/
def Block.make (index : Nat) (timestamp : Int) (data : Json)
    (previous_hash device_id : String) : Block :=
  let b0 : Block := ⟨index, timestamp, data, previous_hash, device_id, 0, ""⟩
  { b0 with hash := b0.calculate_hash }

/-- `Block.from_dict`: all seven fields, `nonce` and `hash` taken verbatim. -/
def Block.from_dict (index : Nat) (timestamp : Int) (data : Json)
    (previous_hash device_id : String) (nonce : Nat) (hash : String) : Block :=
  ⟨index, timestamp, data, previous_hash, device_id, nonce, hash⟩

/-- `Block.is_valid`. -/
def Block.is_valid (b : Block) : Bool := b.hash == b.calculate_hash

/-- One iteration of the `Block.mine_block` loop body: `self.nonce += 1` and
`self.hash = self.calculate_hash()`. -/
def Block.mineStep (b : Block) : Block :=
  let b1 : Block := { b with nonce := b.nonce + 1 }
  { b1 with hash := b1.calculate_hash }

/-- The `while self.hash[:difficulty] != target` loop of `Block.mine_block`,
with fuel bounding the number of iterations. -/
def Block.mineLoop (d : Nat) : Nat → Block → Option Block
  | fuel, b =>
    if pySlice d b.hash = zeros d then some b
    else
      match fuel with
      | 0 => none
      | fuel + 1 => Block.mineLoop d fuel b.mineStep

/-- `Block.mine_block(difficulty)`: run the search and return the final hash
(the method's return value) together with the mutated block. -/
def Block.mine_block (b : Block) (difficulty : Nat) (fuel : Nat) : Option (String × Block) :=
  match Block.mineLoop difficulty fuel b with
  | none => none
  | some b1 => some (b1.hash, b1)

/-! ## `blockchain.py`

The peer set `self.nodes = set()` is embedded as a duplicate-free list so that
`resolve_conflicts`' iteration over it is explicit. -/

structure Blockchain where
  chain : List Block
  difficulty : Nat
  mining_reward : ℚ
  pending_transactions : List Transaction
  nodes : List String

/-- `Blockchain.__init__(difficulty, mining_reward)`. -/
def Blockchain.init (difficulty : Nat) (mining_reward : ℚ) : Blockchain :=
  ⟨[], difficulty, mining_reward, [], []⟩

/-- `Blockchain()` with its default arguments (`difficulty=3, mining_reward=1.0`),
as `resolve_conflicts` constructs its scratch instance. -/
def Blockchain.default : Blockchain := Blockchain.init 3 1

/-- `Blockchain.create_genesis_block` (the clock reading is an argument). -/
def Blockchain.create_genesis_block (now : Int) : Block :=
  Block.make 0 now (.obj [("message", .str "Genesis Block for Pharmaceutical Supply Chain")])
    "0" "genesis_node"

/-- `Blockchain.get_latest_block`: the last chain entry, `None` when empty. -/
def Blockchain.get_latest_block (bc : Blockchain) : Option Block := bc.chain.getLast?

/-- `Blockchain.add_transaction` on an already-coerced `Transaction`: appends
to the pending pool and returns the tentative next-index hint. -/
def Blockchain.add_transaction (bc : Blockchain) (t : Transaction) : Nat × Blockchain :=
  (match bc.chain.getLast? with
   | some tip => tip.index + 1
   | none => 1,
   { bc with pending_transactions := bc.pending_transactions ++ [t] })

/-- `Blockchain.mine_pending_transactions(mining_reward_address)`: build one
block over the whole pending pool, mine it at the chain's difficulty, append
it and clear the pool.  `now` is the `time.time()` reading, `fuel` bounds the
mining loop. -/
def Blockchain.mine_pending_transactions (bc : Blockchain) (mining_reward_address : String)
    (now : Int) (fuel : Nat) : Option (Block × Blockchain) :=
  let previous_hash :=
    match bc.chain.getLast? with
    | some tip => tip.hash
    | none => "0"
  let index := bc.chain.length
  let block := Block.make index now
    (.obj [("count", .int bc.pending_transactions.length),
           ("transactions", .arr (bc.pending_transactions.map Transaction.to_dict))])
    previous_hash mining_reward_address
  match Block.mineLoop bc.difficulty fuel block with
  | none => none
  | some b1 =>
      some (b1, { bc with chain := bc.chain ++ [b1], pending_transactions := [] })

/-- Which of `is_chain_valid`'s three checks fails (mirrors its diagnostic
prints). -/
inductive ChainFault where
  | hashMismatch : ChainFault
  | linkMismatch : ChainFault
  | difficultyShortfall : ChainFault
deriving DecidableEq

/-- The `for i in range(1, len(self.chain))` walk of `is_chain_valid`: `prev`
is `chain[i-1]`, `rest` the blocks from position `i` on.  Returns the index
and check of the first violation, `none` when the walk passes. -/
def chainScan (d : Nat) : Block → List Block → Nat → Option (Nat × ChainFault)
  | _, [], _ => none
  | prev, cur :: rest, i =>
    if cur.hash ≠ cur.calculate_hash then some (i, .hashMismatch)
    else if cur.previous_hash ≠ prev.hash then some (i, .linkMismatch)
    else if ¬ pyStartswith (zeros d) cur.hash then some (i, .difficultyShortfall)
    else chainScan d cur rest (i + 1)

/-- The first violation `is_chain_valid` reports, with its index. -/
def Blockchain.firstViolation (bc : Blockchain) : Option (Nat × ChainFault) :=
  match bc.chain with
  | [] => none
  | b :: rest => chainScan bc.difficulty b rest 1

/-- `Blockchain.is_chain_valid`: true iff the walk finds no violation. -/
def Blockchain.is_chain_valid (bc : Blockchain) : Bool := bc.firstViolation.isNone

/-- `Blockchain.add_block` on an already-coerced `Block`: returns the
success flag and the resulting chain state. -/
def Blockchain.add_block (bc : Blockchain) (block : Block) : Bool × Blockchain :=
  let linkBad : Bool :=
    match bc.chain.getLast? with
    | some tip => block.previous_hash != tip.hash
    | none => false
  if linkBad then (false, bc)
  else if block.hash ≠ block.calculate_hash then (false, bc)
  else if ¬ pyStartswith (zeros bc.difficulty) block.hash then (false, bc)
  else (true, { bc with chain := bc.chain ++ [block] })

/-- `Blockchain.register_node`: add to the peer set. -/
def Blockchain.register_node (bc : Blockchain) (node_address : String) : Blockchain :=
  if node_address ∈ bc.nodes then bc else { bc with nodes := bc.nodes ++ [node_address] }

/-- The scratch `Blockchain()` that `resolve_conflicts` validates a fetched
chain with — note its difficulty is the default 3, not the local chain's. -/
def tempBlockchain (chain : List Block) : Blockchain := { Blockchain.default with chain }

/-- The `for node in self.nodes` loop of `resolve_conflicts`, carrying
`max_length` and the best candidate chain seen so far. -/
def resolveScan (get_chain : String → List Block) :
    List String → Nat → Option (List Block) → Nat × Option (List Block)
  | [], max_length, new_chain => (max_length, new_chain)
  | node :: rest, max_length, new_chain =>
    let chain := get_chain node
    if chain.isEmpty = false ∧ chain.length > max_length ∧
        (tempBlockchain chain).is_chain_valid = true then
      resolveScan get_chain rest chain.length (some chain)
    else
      resolveScan get_chain rest max_length new_chain

/-- `Blockchain.resolve_conflicts(get_chain_function)`: adopt the longest
valid strictly-longer peer chain, if any.  A peer answering `None` or an empty
document is the empty list. -/
def Blockchain.resolve_conflicts (bc : Blockchain) (get_chain : String → List Block) :
    Bool × Blockchain :=
  match resolveScan get_chain bc.nodes bc.chain.length none with
  | (_, some new_chain) => (true, { bc with chain := new_chain })
  | (_, none) => (false, bc)

/-- Exact product of two rationals (kept in kernel-reducible form). -/
def ratMul (a b : ℚ) : ℚ := Rat.divInt (a.num * b.num) ((a.den : Int) * (b.den : Int))

/-- The `times` list of `adjust_difficulty`: inter-block timestamp
differences over the most recent 10 blocks (integer clock readings, so the
differences are integers). -/
def interTimes (bc : Blockchain) : List Int :=
  let recent := bc.chain.drop (bc.chain.length - 10)
  (recent.zip recent.tail).map (fun p => p.2.timestamp - p.1.timestamp)

/-- The `avg_time` of `adjust_difficulty`, as the exact rational
`sum(times) / len(times)`. -/
def avgTime (bc : Blockchain) : ℚ := Rat.divInt (interTimes bc).sum (interTimes bc).length

/-- `Blockchain.adjust_difficulty(target_time)`: returns the resulting
difficulty and chain state.  `0.8 * target` and `1.2 * target` are the exact
products. -/
def Blockchain.adjust_difficulty (bc : Blockchain) (target_time : ℚ) : Nat × Blockchain :=
  if bc.chain.length < 10 then (bc.difficulty, bc)
  else if avgTime bc < ratMul target_time (Rat.divInt 8 10) then
    (bc.difficulty + 1, { bc with difficulty := bc.difficulty + 1 })
  else if avgTime bc > ratMul target_time (Rat.divInt 12 10) then
    (max 1 (bc.difficulty - 1), { bc with difficulty := max 1 (bc.difficulty - 1) })
  else
    (bc.difficulty, bc)

/-! ## `pow_miner.py` (the `ProofOfWork` pieces claims C8 and C9 exercise)

Elapsed wall-clock time is an explicit argument; `difficulty` is the integer
leading-zero count `mine_block` checks against. -/

structure MiningStats where
  blocks_mined : Nat
  total_time : ℚ
  average_time : ℚ
  last_difficulties : List Nat

structure ProofOfWork where
  difficulty : Nat
  target_time : ℚ
  adjustment_factor : ℚ
  mining_stats : MiningStats

/-- `ProofOfWork.__init__` with its statistics zeroed. -/
def ProofOfWork.init (initial_difficulty : Nat) (target_time adjustment_factor : ℚ) :
    ProofOfWork :=
  ⟨initial_difficulty, target_time, adjustment_factor, ⟨0, 0, 0, []⟩⟩

/-- `ProofOfWork.check_difficulty(hash_string, difficulty)`. -/
def ProofOfWork.check_difficulty (hash_string : String) (difficulty : Nat) : Bool :=
  pyStartswith (zeros difficulty) hash_string

/-- The `while nonce < max_nonce` loop of `ProofOfWork.mine_block`: the fuel
is the number of nonces left to try (`max_nonce - nonce`).  Each iteration
stores the nonce into the block and recomputes its hash; on success the hash
is written back.  Returns the winning `(nonce, hash)` if any, and the block in
its final state. -/
def powSearch (d : Nat) : Nat → Nat → Block → Option (Nat × String) × Block
  | 0, _, b => (none, b)
  | fuel + 1, nonce, b =>
    let b1 : Block := { b with nonce := nonce }
    let hash_result := b1.calculate_hash
    if ProofOfWork.check_difficulty hash_result d then
      (some (nonce, hash_result), { b1 with hash := hash_result })
    else
      powSearch d fuel (nonce + 1) b1

/-- The `(success, nonce, hash, time_taken)` tuple `ProofOfWork.mine_block`
returns. -/
structure MineResult where
  success : Bool
  nonce : Nat
  hash : Option String
  time_taken : ℚ
deriving DecidableEq

/-- `ProofOfWork.mine_block(block, max_nonce)`: bounded search from nonce 0;
on success update the mining statistics (rolling difficulty window capped at
10, oldest entry dropped); on failure report `(False, max_nonce, None, t)`.
`elapsed` is the measured wall-clock time of the search. -/
def ProofOfWork.mine_block (pow : ProofOfWork) (block : Block) (max_nonce : Nat)
    (elapsed : ℚ) : MineResult × Block × ProofOfWork :=
  match powSearch pow.difficulty max_nonce 0 block with
  | (some (nonce, hash_result), b1) =>
      let st := pow.mining_stats
      let blocks_mined := st.blocks_mined + 1
      let total_time := st.total_time + elapsed
      let appended := st.last_difficulties ++ [pow.difficulty]
      let window := if appended.length > 10 then appended.drop 1 else appended
      (⟨true, nonce, some hash_result, elapsed⟩, b1,
       { pow with mining_stats :=
          ⟨blocks_mined, total_time, total_time / (blocks_mined : ℚ), window⟩ })
  | (none, b1) => (⟨false, max_nonce, none, elapsed⟩, b1, pow)

/-! ## Basic facts about the embedding -/

/-- `calculate_hash` does not read the stored `hash` field. -/
theorem calculate_hash_set_hash (b : Block) (h : String) :
    Block.calculate_hash { b with hash := h } = b.calculate_hash := rfl

/-- A freshly constructed block stores the hash of its own fields. -/
theorem make_hash_eq (index : Nat) (timestamp : Int) (data : Json)
    (previous_hash device_id : String) :
    (Block.make index timestamp data previous_hash device_id).hash =
      (Block.make index timestamp data previous_hash device_id).calculate_hash := rfl

/-- After a mining iteration the stored hash matches the fields again. -/
theorem mineStep_hash_eq (b : Block) : b.mineStep.hash = b.mineStep.calculate_hash := rfl

/-- A Boolean `is_valid` is exactly the propositional hash equation. -/
theorem is_valid_iff (b : Block) : b.is_valid = true ↔ b.hash = b.calculate_hash := by
  simp [Block.is_valid]

/-- A string whose first `d` characters are `'0' * d` starts with `'0' * d`
(the bridge between `Block.mine_block`'s slice test and the chain's
`startswith` test). -/
theorem take_replicate_isPrefixOf : ∀ (d : Nat) (l : List Char),
    l.take d = List.replicate d '0' → (List.replicate d '0').isPrefixOf l = true := by
  intro d
  induction d with
  | zero => intro l _; simp [List.isPrefixOf]
  | succ n ih =>
    intro l h
    cases l with
    | nil => simp [List.replicate] at h
    | cons c tl =>
      rw [List.replicate_succ] at h ⊢
      rw [List.take_succ_cons] at h
      obtain ⟨hc, ht⟩ := List.cons_eq_cons.mp h
      simp [List.isPrefixOf, hc, ih tl ht]

theorem pySlice_imp_startswith (d : Nat) (s : String) (h : pySlice d s = zeros d) :
    pyStartswith (zeros d) s = true := by
  have hl : s.data.take d = List.replicate d '0' := congrArg String.data h
  exact take_replicate_isPrefixOf d s.data hl

/-! ## The `Block.mine_block` search -/

/-- What a completed `mine_block` search guarantees: the final hash passes the
prefix test, every field except `nonce` and `hash` is untouched, the nonce
only grew, and — provided the stored hash was not stale on entry — the stored
hash matches the fields. -/
theorem mineLoop_spec (d : Nat) : ∀ (fuel : Nat) (b out : Block),
    Block.mineLoop d fuel b = some out →
    pySlice d out.hash = zeros d ∧ out.index = b.index ∧ out.timestamp = b.timestamp ∧
    out.data = b.data ∧ out.previous_hash = b.previous_hash ∧
    out.device_id = b.device_id ∧ b.nonce ≤ out.nonce ∧
    (b.hash = b.calculate_hash → out.hash = out.calculate_hash) := by
  intro fuel
  induction fuel with
  | zero =>
    intro b out h
    rw [Block.mineLoop] at h
    split at h
    · cases h
      exact ⟨‹_›, rfl, rfl, rfl, rfl, rfl, Nat.le_refl _, fun hv => hv⟩
    · exact absurd h (by simp)
  | succ n ih =>
    intro b out h
    rw [Block.mineLoop] at h
    split at h
    · cases h
      exact ⟨‹_›, rfl, rfl, rfl, rfl, rfl, Nat.le_refl _, fun hv => hv⟩
    · have h2 := ih b.mineStep out h
      refine ⟨h2.1, h2.2.1, h2.2.2.1, h2.2.2.2.1, h2.2.2.2.2.1, h2.2.2.2.2.2.1,
        Nat.le_trans (Nat.le_succ _) h2.2.2.2.2.2.2.1, fun _ => ?_⟩
      exact h2.2.2.2.2.2.2.2 (mineStep_hash_eq b)

/-- If some iterate of the loop body within the fuel bound satisfies the
prefix test, the search completes. -/
theorem mineLoop_complete (d : Nat) : ∀ (fuel : Nat) (b : Block) (k : Nat), k ≤ fuel →
    pySlice d (Block.mineStep^[k] b).hash = zeros d →
    (Block.mineLoop d fuel b).isSome = true := by
  intro fuel
  induction fuel with
  | zero =>
    intro b k hk hs
    interval_cases k
    rw [Block.mineLoop]
    simp only [Function.iterate_zero, id] at hs
    simp [hs]
  | succ n ih =>
    intro b k hk hs
    rw [Block.mineLoop]
    split
    · simp
    · rename_i hne
      cases k with
      | zero =>
        simp only [Function.iterate_zero, id] at hs
        exact absurd hs hne
      | succ m =>
        rw [Function.iterate_succ_apply] at hs
        exact ih b.mineStep m (Nat.le_of_succ_le_succ hk) hs

/-! ## Claim C1 -/

/-- C1 (amended).  For every block whose stored hash matches its fields (as
any freshly constructed block does), whenever the `mine_block` search
completes it returns the final stored hash, that hash has at least `d`
leading `'0'` characters and equals the hash recomputed from the block's
final fields (so `is_valid()` holds), all fields but `nonce`/`hash` are
unchanged and the nonce only grew from its starting value; conversely the
search does complete as soon as some iterate of the increment-and-rehash body
satisfies the prefix condition.  (The unamended claim, quantified over
arbitrary blocks, fails on a block deserialized with a stale stored hash that
already meets the target: the loop exits immediately and `is_valid()` is
false — see the counterexample.) -/
theorem C1_mine_block_correct :
    (∀ (d fuel : Nat) (b : Block) (s : String) (b1 : Block),
      b.hash = b.calculate_hash →
      b.mine_block d fuel = some (s, b1) →
      s = b1.hash ∧ pySlice d b1.hash = zeros d ∧ b1.hash = b1.calculate_hash ∧
      b1.is_valid = true ∧ b1.index = b.index ∧ b1.timestamp = b.timestamp ∧
      b1.data = b.data ∧ b1.previous_hash = b.previous_hash ∧
      b1.device_id = b.device_id ∧ b.nonce ≤ b1.nonce) ∧
    (∀ (d fuel : Nat) (b : Block) (k : Nat), k ≤ fuel →
      pySlice d (Block.mineStep^[k] b).hash = zeros d →
      (b.mine_block d fuel).isSome = true) := by
  constructor
  · intro d fuel b s b1 hfresh h
    cases hml : Block.mineLoop d fuel b with
    | none => rw [Block.mine_block, hml] at h; cases h
    | some b2 =>
      rw [Block.mine_block, hml] at h
      simp only [Option.some.injEq, Prod.mk.injEq] at h
      obtain ⟨hsh, hb⟩ := h
      subst hb
      subst hsh
      have hs := mineLoop_spec d fuel b b2 hml
      have hv : b2.hash = b2.calculate_hash := hs.2.2.2.2.2.2.2 hfresh
      exact ⟨rfl, hs.1, hv, (is_valid_iff b2).mpr hv, hs.2.1, hs.2.2.1, hs.2.2.2.1,
        hs.2.2.2.2.1, hs.2.2.2.2.2.1, hs.2.2.2.2.2.2.1⟩
  · intro d fuel b k hk hs
    have h := mineLoop_complete d fuel b k hk hs
    cases hml : Block.mineLoop d fuel b with
    | none => rw [hml] at h; cases h
    | some b2 => rw [Block.mine_block, hml]; simp

/-- Witness for C1: a freshly constructed block mined at difficulty 0
completes immediately and satisfies the postconditions. -/
theorem C1_witness :
    (Block.make 0 7 (.obj []) "0" "w1").mine_block 0 0 =
      some ((Block.make 0 7 (.obj []) "0" "w1").hash, Block.make 0 7 (.obj []) "0" "w1") ∧
    (Block.make 0 7 (.obj []) "0" "w1").is_valid = true ∧
    (0 : Nat) ≤ 0 := by
  refine ⟨rfl, ?_, Nat.le_refl 0⟩
  have h := C1_mine_block_correct.1 0 0 (Block.make 0 7 (.obj []) "0" "w1")
    (Block.make 0 7 (.obj []) "0" "w1").hash (Block.make 0 7 (.obj []) "0" "w1")
    (make_hash_eq 0 7 (.obj []) "0" "w1") rfl
  exact h.2.2.2.1

/-- A block as `Block.from_dict` rebuilds it, with a stale stored hash `"0"`
that already begins with one `'0'` but does not match its fields. -/
def staleBlock : Block := Block.from_dict 0 70 (.obj []) "0" "c1" 0 "0"

/-- Counterexample to C1 as stated: on this block `mine_block(1)` returns at
once with the stale hash, and `is_valid()` is false afterwards. -/
theorem C1_counterexample :
    staleBlock.mine_block 1 5 = some ("0", staleBlock) ∧ staleBlock.is_valid = false := by
  constructor
  · rfl
  · decide

/-! ## Claim C2 -/

/-- C2.  `add_block` succeeds exactly when the block links to the current tip
(vacuously on an empty chain), its stored hash matches the recomputed hash,
and the hash meets the chain's current difficulty; on success the block is
appended and everything else is untouched, on failure the state is returned
unchanged. -/
theorem C2_add_block_spec (bc : Blockchain) (b : Block) :
    ((bc.add_block b).1 = true ↔
      ((∀ tip, bc.chain.getLast? = some tip → b.previous_hash = tip.hash) ∧
       b.hash = b.calculate_hash ∧
       pyStartswith (zeros bc.difficulty) b.hash = true)) ∧
    ((bc.add_block b).1 = true →
      (bc.add_block b).2 = { bc with chain := bc.chain ++ [b] }) ∧
    ((bc.add_block b).1 = false → (bc.add_block b).2 = bc) := by
  cases hlast : bc.chain.getLast? with
  | none =>
    by_cases h2 : b.hash = b.calculate_hash
    · by_cases h3 : pyStartswith (zeros bc.difficulty) b.calculate_hash = true <;>
        simp [Blockchain.add_block, hlast, h2, h3]
    · simp [Blockchain.add_block, hlast, h2]
  | some tip =>
    by_cases h1 : b.previous_hash = tip.hash
    · by_cases h2 : b.hash = b.calculate_hash
      · by_cases h3 : pyStartswith (zeros bc.difficulty) b.calculate_hash = true <;>
          simp [Blockchain.add_block, hlast, h1, h2, h3]
      · simp [Blockchain.add_block, hlast, h1, h2]
    · simp [Blockchain.add_block, hlast, h1]

/-- Witness for C2: on an empty difficulty-0 chain a freshly constructed
block passes all three checks and is appended. -/
theorem C2_witness :
    ((Blockchain.init 0 1).add_block (Block.make 0 7 (.obj []) "0" "w2")).1 = true ∧
    ((Blockchain.init 0 1).add_block (Block.make 0 7 (.obj []) "0" "w2")).2.chain =
      [Block.make 0 7 (.obj []) "0" "w2"] := by
  have h := C2_add_block_spec (Blockchain.init 0 1) (Block.make 0 7 (.obj []) "0" "w2")
  have hok : ((Blockchain.init 0 1).add_block (Block.make 0 7 (.obj []) "0" "w2")).1 = true := by
    apply h.1.mpr
    refine ⟨?_, ?_, ?_⟩
    · intro tip htip
      simp [Blockchain.init] at htip
    · exact make_hash_eq 0 7 (.obj []) "0" "w2"
    · decide
  refine ⟨hok, ?_⟩
  rw [h.2.1 hok]
  rfl

/-! ## The chain-validity walk -/

/-- The last block of the nonempty chain `prev :: c`. -/
def lastBlock (prev : Block) : List Block → Block
  | [] => prev
  | x :: rest => lastBlock x rest

theorem getLast?_eq_lastBlock (prev : Block) (c : List Block) :
    (prev :: c).getLast? = some (lastBlock prev c) := by
  induction c generalizing prev with
  | nil => rfl
  | cons x rest ih => rw [lastBlock, List.getLast?_cons_cons]; exact ih x

/-- A passing step of the walk moves on to the next adjacent pair. -/
theorem chainScan_cons_pass (d : Nat) (prev cur : Block) (rest : List Block) (i : Nat)
    (e1 : cur.hash = cur.calculate_hash) (e2 : cur.previous_hash = prev.hash)
    (e3 : pyStartswith (zeros d) cur.hash = true) :
    chainScan d prev (cur :: rest) i = chainScan d cur rest (i + 1) := by
  rw [e1] at e3
  simp [chainScan, e1, e2, e3]

/-- Appending a block that matches its own hash, links to the chain's last
block and meets the difficulty keeps the walk passing. -/
theorem chainScan_append (d : Nat) :
    ∀ (c : List Block) (prev : Block) (i : Nat) (B : Block),
      chainScan d prev c i = none →
      B.hash = B.calculate_hash →
      B.previous_hash = (lastBlock prev c).hash →
      pyStartswith (zeros d) B.hash = true →
      chainScan d prev (c ++ [B]) i = none := by
  intro c
  induction c with
  | nil =>
    intro prev i B _ h1 h2 h3
    rw [lastBlock] at h2
    simp only [List.nil_append]
    rw [chainScan_cons_pass d prev B [] i h1 h2 h3]
    rfl
  | cons x rest ih =>
    intro prev i B hscan h1 h2 h3
    rw [lastBlock] at h2
    by_cases e1 : x.hash = x.calculate_hash
    case neg => rw [chainScan] at hscan; simp [e1] at hscan
    by_cases e2 : x.previous_hash = prev.hash
    case neg => rw [chainScan] at hscan; simp [e1, e2] at hscan
    by_cases e3 : pyStartswith (zeros d) x.calculate_hash = true
    case neg => rw [chainScan] at hscan; simp [e1, e2, e3] at hscan
    have e3h : pyStartswith (zeros d) x.hash = true := by rw [e1]; exact e3
    rw [chainScan_cons_pass d prev x rest i e1 e2 e3h] at hscan
    rw [List.cons_append, chainScan_cons_pass d prev x (rest ++ [B]) i e1 e2 e3h]
    exact ih x (i + 1) B hscan h1 h2 h3

/-- Overwriting position `k` of a passing suffix with a block whose stored
hash mismatches its fields makes the walk stop exactly there. -/
theorem chainScan_set (d : Nat) :
    ∀ (c : List Block) (prev : Block) (i k : Nat) (b' : Block),
      chainScan d prev c i = none →
      k < c.length →
      b'.hash ≠ b'.calculate_hash →
      chainScan d prev (c.set k b') i = some (i + k, .hashMismatch) := by
  intro c
  induction c with
  | nil => intro _ _ k _ _ hk _; exact absurd hk (by simp)
  | cons x rest ih =>
    intro prev i k b' hscan hk hbad
    cases k with
    | zero =>
      rw [List.set_cons_zero, chainScan]
      simp [hbad]
    | succ m =>
      by_cases e1 : x.hash = x.calculate_hash
      case neg => rw [chainScan] at hscan; simp [e1] at hscan
      by_cases e2 : x.previous_hash = prev.hash
      case neg => rw [chainScan] at hscan; simp [e1, e2] at hscan
      by_cases e3 : pyStartswith (zeros d) x.calculate_hash = true
      case neg => rw [chainScan] at hscan; simp [e1, e2, e3] at hscan
      have e3h : pyStartswith (zeros d) x.hash = true := by rw [e1]; exact e3
      rw [chainScan_cons_pass d prev x rest i e1 e2 e3h] at hscan
      rw [List.set_cons_succ, chainScan_cons_pass d prev x (rest.set m b') i e1 e2 e3h]
      have hrec := ih x (i + 1) m b' hscan (Nat.lt_of_succ_lt_succ hk) hbad
      rw [hrec]
      congr 2
      omega

/-- Inversion of `mine_pending_transactions`: the returned block is the mined
fresh block over the pending payload, and the new state is the old one with
that block appended and the pool cleared. -/
theorem mine_pending_inv (bc : Blockchain) (addr : String) (now : Int) (fuel : Nat)
    (b : Block) (bc' : Blockchain)
    (h : bc.mine_pending_transactions addr now fuel = some (b, bc')) :
    Block.mineLoop bc.difficulty fuel
      (Block.make bc.chain.length now
        (.obj [("count", .int bc.pending_transactions.length),
               ("transactions", .arr (bc.pending_transactions.map Transaction.to_dict))])
        (match bc.chain.getLast? with | some tip => tip.hash | none => "0") addr) = some b ∧
    bc' = { bc with chain := bc.chain ++ [b], pending_transactions := [] } := by
  rw [Blockchain.mine_pending_transactions] at h
  cases hml : Block.mineLoop bc.difficulty fuel
      (Block.make bc.chain.length now
        (.obj [("count", .int bc.pending_transactions.length),
               ("transactions", .arr (bc.pending_transactions.map Transaction.to_dict))])
        (match bc.chain.getLast? with | some tip => tip.hash | none => "0") addr) with
  | none =>
    rw [hml] at h
    cases h
  | some b1 =>
    rw [hml] at h
    simp only [Option.some.injEq, Prod.mk.injEq] at h
    obtain ⟨hb, hbc⟩ := h
    subst hb
    exact ⟨rfl, hbc.symm⟩

theorem is_chain_valid_eq (bc : Blockchain) : bc.is_chain_valid = bc.firstViolation.isNone := rfl

theorem firstViolation_nil (bc : Blockchain) (hch : bc.chain = []) :
    bc.firstViolation = none := by
  rw [Blockchain.firstViolation, hch]

theorem firstViolation_cons (bc : Blockchain) (x : Block) (rest : List Block)
    (hch : bc.chain = x :: rest) :
    bc.firstViolation = chainScan bc.difficulty x rest 1 := by
  rw [Blockchain.firstViolation, hch]

/-- A fresh chain state is (vacuously) valid. -/
theorem valid_init (d : Nat) (r : ℚ) : (Blockchain.init d r).is_chain_valid = true := rfl

/-- Mining another block on a valid chain keeps the whole-history walk
passing. -/
theorem mine_preserves_valid (bc : Blockchain) (addr : String) (now : Int) (fuel : Nat)
    (b : Block) (bc' : Blockchain)
    (hvalid : bc.is_chain_valid = true)
    (hmine : bc.mine_pending_transactions addr now fuel = some (b, bc')) :
    bc'.is_chain_valid = true := by
  obtain ⟨hml, hbc'⟩ := mine_pending_inv bc addr now fuel b bc' hmine
  have hs := mineLoop_spec bc.difficulty fuel _ b hml
  have hv : b.hash = b.calculate_hash :=
    hs.2.2.2.2.2.2.2 (make_hash_eq _ _ _ _ _)
  have hpref : pyStartswith (zeros bc.difficulty) b.hash = true :=
    pySlice_imp_startswith _ _ hs.1
  subst hbc'
  cases hchain : bc.chain with
  | nil =>
    have hch2 : ({ bc with chain := [] ++ [b], pending_transactions := [] } :
        Blockchain).chain = b :: [] := rfl
    rw [is_chain_valid_eq, firstViolation_cons _ b [] hch2]
    rfl
  | cons h0 rest =>
    have hlink : b.previous_hash = (lastBlock h0 rest).hash := by
      rw [hs.2.2.2.2.1]
      show (match bc.chain.getLast? with | some tip => tip.hash | none => "0") =
        (lastBlock h0 rest).hash
      rw [hchain, getLast?_eq_lastBlock]
    have hvr : chainScan bc.difficulty h0 rest 1 = none := by
      rw [is_chain_valid_eq, firstViolation_cons bc h0 rest hchain] at hvalid
      exact Option.isNone_iff_eq_none.mp hvalid
    have happ := chainScan_append bc.difficulty rest h0 1 b hvr hv hlink hpref
    have hch2 : ({ bc with chain := (h0 :: rest) ++ [b], pending_transactions := [] } :
        Blockchain).chain = h0 :: (rest ++ [b]) := rfl
    rw [is_chain_valid_eq, firstViolation_cons _ h0 (rest ++ [b]) hch2]
    show (chainScan bc.difficulty h0 (rest ++ [b]) 1).isNone = true
    rw [happ]
    rfl

/-- Tampering with a block at a positive index so that its stored hash no
longer matches its fields is flagged exactly there. -/
theorem tamper_flagged (bc : Blockchain) (i : Nat) (b' : Block)
    (hvalid : bc.is_chain_valid = true) (h1 : 1 ≤ i) (h2 : i < bc.chain.length)
    (hbad : b'.hash ≠ b'.calculate_hash) :
    ({ bc with chain := bc.chain.set i b' } : Blockchain).firstViolation =
      some (i, .hashMismatch) ∧
    ({ bc with chain := bc.chain.set i b' } : Blockchain).is_chain_valid = false := by
  cases hchain : bc.chain with
  | nil => rw [hchain] at h2; simp at h2
  | cons h0 rest =>
    obtain ⟨m, rfl⟩ : ∃ m, i = m + 1 := ⟨i - 1, by omega⟩
    have hvr : chainScan bc.difficulty h0 rest 1 = none := by
      rw [is_chain_valid_eq, firstViolation_cons bc h0 rest hchain] at hvalid
      exact Option.isNone_iff_eq_none.mp hvalid
    have hm : m < rest.length := by
      rw [hchain] at h2
      simpa using h2
    have hset := chainScan_set bc.difficulty rest h0 1 m b' hvr hm hbad
    have hch2 : ({ bc with chain := (h0 :: rest).set (m + 1) b' } : Blockchain).chain =
        h0 :: rest.set m b' := rfl
    have hfv : ({ bc with chain := (h0 :: rest).set (m + 1) b' } : Blockchain).firstViolation =
        some (m + 1, ChainFault.hashMismatch) := by
      rw [firstViolation_cons _ h0 (rest.set m b') hch2]
      show chainScan bc.difficulty h0 (rest.set m b') 1 = some (m + 1, ChainFault.hashMismatch)
      rw [hset, Nat.add_comm]
    refine ⟨hfv, ?_⟩
    rw [is_chain_valid_eq, hfv]
    rfl

/-! ## Claim C3 -/

/-- C3 (amended).  A fresh chain is valid and mining keeps it valid (so a
freshly mined, untouched chain of any length passes `is_chain_valid`, the
chain's difficulty unchanged since mining); and overwriting the block at any
index `i ≥ 1` with one whose stored hash no longer matches its recomputed
hash — which mutating any single field does, barring a SHA-256 collision —
makes `is_chain_valid` false, flagged at index `i` with a hash-mismatch
diagnostic.  (The unamended claim said mutating any field of *any* historical
block is detected; the walk starts at index 1 and compares only each block's
own stored hash and the predecessor's *stored* hash, so mutating a non-`hash`
field of block 0 goes undetected — see the counterexample.) -/
theorem C3_validity_scan :
    (∀ (d : Nat) (r : ℚ), (Blockchain.init d r).is_chain_valid = true) ∧
    (∀ (bc : Blockchain) (addr : String) (now : Int) (fuel : Nat) (b : Block)
        (bc' : Blockchain),
      bc.is_chain_valid = true →
      bc.mine_pending_transactions addr now fuel = some (b, bc') →
      bc'.is_chain_valid = true) ∧
    (∀ (bc : Blockchain) (i : Nat) (b' : Block),
      bc.is_chain_valid = true → 1 ≤ i → i < bc.chain.length →
      b'.hash ≠ b'.calculate_hash →
      ({ bc with chain := bc.chain.set i b' } : Blockchain).firstViolation =
        some (i, .hashMismatch) ∧
      ({ bc with chain := bc.chain.set i b' } : Blockchain).is_chain_valid = false) :=
  ⟨valid_init, mine_preserves_valid, tamper_flagged⟩

/-- A never-used fallback for list lookups on concrete chains. -/
def dummyBlock : Block := Block.from_dict 0 0 (.obj []) "" "" 0 ""

/-- Mine one block (miner `"m"`, difficulty as in the state) or keep the
state; at difficulty 0 the search always succeeds at once. -/
def mineOrKeep (bc : Blockchain) (now : Int) : Blockchain :=
  match bc.mine_pending_transactions "m" now 0 with
  | some (_, bc2) => bc2
  | none => bc

/-- A freshly mined, untouched two-block chain at difficulty 0. -/
def minedTwo : Blockchain := mineOrKeep (mineOrKeep (Blockchain.init 0 1) 1) 2

/-- Block 0 of `minedTwo` with its `device_id` overwritten (not rehashed). -/
def evilB0 : Block := { minedTwo.chain.getD 0 dummyBlock with device_id := "evil" }

/-- `minedTwo` with block 0 tampered. -/
def minedTwoTampered0 : Blockchain :=
  { minedTwo with chain := minedTwo.chain.set 0 evilB0 }

/-- Block 1 of `minedTwo` with its `device_id` overwritten (not rehashed). -/
def evilB1 : Block := { minedTwo.chain.getD 1 dummyBlock with device_id := "evil" }

/-- `minedTwo` with block 1 tampered. -/
def minedTwoTampered1 : Blockchain :=
  { minedTwo with chain := minedTwo.chain.set 1 evilB1 }

/-- A two-block chain state is valid once its second block passes the three
checks (the walk never examines block 0 on its own). -/
theorem is_chain_valid_of_two (bc : Blockchain) (x y : Block)
    (hch : bc.chain = [x, y])
    (e1 : y.hash = y.calculate_hash) (e2 : y.previous_hash = x.hash)
    (e3 : pyStartswith (zeros bc.difficulty) y.hash = true) :
    bc.is_chain_valid = true := by
  rw [is_chain_valid_eq, firstViolation_cons bc x [y] hch,
    chainScan_cons_pass bc.difficulty x y [] 1 e1 e2 e3]
  rfl

theorem minedTwo_valid : minedTwo.is_chain_valid = true :=
  is_chain_valid_of_two minedTwo (minedTwo.chain.getD 0 dummyBlock)
    (minedTwo.chain.getD 1 dummyBlock) rfl rfl rfl rfl

/-- Counterexample to C3 as stated: on a freshly mined, untouched two-block
chain, overwriting historical block 0's `device_id` (without rehashing)
leaves `is_chain_valid()` true — the mutation is not detected. -/
theorem C3_counterexample :
    minedTwo.is_chain_valid = true ∧
    minedTwo.chain.length = 2 ∧
    (minedTwo.chain.getD 0 dummyBlock).device_id = "m" ∧
    evilB0.device_id = "evil" ∧
    minedTwoTampered0.is_chain_valid = true :=
  ⟨minedTwo_valid, rfl, rfl, rfl,
    is_chain_valid_of_two minedTwoTampered0 evilB0
      (minedTwo.chain.getD 1 dummyBlock) rfl rfl rfl rfl⟩

/-- Witness for C3: tampering with block 1 of the freshly mined two-block
chain is flagged at index 1. -/
theorem C3_witness :
    minedTwoTampered1.firstViolation = some (1, ChainFault.hashMismatch) ∧
    minedTwoTampered1.is_chain_valid = false := by
  have h := C3_validity_scan.2.2 minedTwo 1 evilB1 minedTwo_valid (Nat.le_refl 1)
    (by decide) (by decide)
  exact h

/-! ## Claim C4 -/

/-- C4.  `mine_pending_transactions(addr)` builds exactly one block at index
equal to the current chain length, whose payload holds the serializations of
the whole pending pool in submission order together with its count, linked to
the current tip's hash (`"0"` on an empty chain), carrying `device_id = addr`,
mined at the chain's current difficulty; the block is appended, the pool is
emptied, everything else is unchanged, and the block is returned. -/
theorem C4_mine_pending_spec (bc : Blockchain) (addr : String) (now : Int) (fuel : Nat)
    (b : Block) (bc' : Blockchain)
    (h : bc.mine_pending_transactions addr now fuel = some (b, bc')) :
    b.index = bc.chain.length ∧
    b.data = .obj [("count", .int bc.pending_transactions.length),
                   ("transactions", .arr (bc.pending_transactions.map Transaction.to_dict))] ∧
    b.previous_hash = (match bc.chain.getLast? with | some tip => tip.hash | none => "0") ∧
    b.device_id = addr ∧ b.timestamp = now ∧
    pySlice bc.difficulty b.hash = zeros bc.difficulty ∧
    b.hash = b.calculate_hash ∧
    bc'.chain = bc.chain ++ [b] ∧ bc'.pending_transactions = [] ∧
    bc'.difficulty = bc.difficulty ∧ bc'.nodes = bc.nodes ∧
    bc'.mining_reward = bc.mining_reward := by
  obtain ⟨hml, hbc'⟩ := mine_pending_inv bc addr now fuel b bc' h
  have hs := mineLoop_spec bc.difficulty fuel _ b hml
  subst hbc'
  exact ⟨hs.2.1, hs.2.2.2.1, hs.2.2.2.2.1, hs.2.2.2.2.2.1, hs.2.2.1, hs.1,
    hs.2.2.2.2.2.2.2 (make_hash_eq _ _ _ _ _), rfl, rfl, rfl, rfl, rfl⟩

/-- The two pending transactions of the concrete mining scenario. -/
def txA : Transaction := Transaction.make (.obj [("item", .str "A")]) 11 (some "dev")

def txB : Transaction := Transaction.make (.obj [("item", .str "B")]) 12 (some "dev")

/-- Empty difficulty-0 chain with `txA` then `txB` submitted. -/
def bcW4 : Blockchain := (((Blockchain.init 0 1).add_transaction txA).2.add_transaction txB).2

/-- The block `bcW4` mines (difficulty 0 always succeeds at once). -/
def minedW4 : Block :=
  match bcW4.mine_pending_transactions "miner" 13 0 with
  | some (b, _) => b
  | none => dummyBlock

/-- The chain state after `bcW4` mines. -/
def bcW4' : Blockchain :=
  match bcW4.mine_pending_transactions "miner" 13 0 with
  | some (_, bc2) => bc2
  | none => bcW4

/-- Witness for C4: mining the two submitted transactions produces one block
at index 0 holding both serializations in submission order with count 2,
linked to `"0"`, and empties the pool. -/
theorem C4_witness :
    minedW4.index = 0 ∧ minedW4.device_id = "miner" ∧
    minedW4.data = .obj [("count", .int 2),
                         ("transactions", .arr [txA.to_dict, txB.to_dict])] ∧
    minedW4.previous_hash = "0" ∧
    bcW4'.chain = [minedW4] ∧ bcW4'.pending_transactions = [] := by
  have h := C4_mine_pending_spec bcW4 "miner" 13 0 minedW4 bcW4' rfl
  refine ⟨?_, h.2.2.2.1, ?_, ?_, ?_, h.2.2.2.2.2.2.2.2.1⟩
  · rw [h.1]
    rfl
  · rw [h.2.1]
    rfl
  · rw [h.2.2.1]
    rfl
  · rw [h.2.2.2.2.2.2.2.1]
    rfl

/-! ## Claim C6 -/

/-- C6.  Deserializing a transaction preserves the given `transaction_id`
verbatim (it is not recomputed) and the other three fields, and serializing
it back reproduces exactly the four-field mapping it came from; whereas a
freshly created transaction derives its `transaction_id` as the hex SHA-256
digest of the canonical key-sorted serialization of
`{content, timestamp, device_id}` — a pure function of those three fields. -/
theorem C6_from_dict_roundtrip (transaction_id : String) (content : Json) (timestamp : Int)
    (device_id : Option String) :
    (Transaction.from_dict transaction_id content timestamp device_id).transaction_id =
      transaction_id ∧
    (Transaction.from_dict transaction_id content timestamp device_id).to_dict =
      .obj [("content", content), ("device_id", optStr device_id),
            ("timestamp", .int timestamp), ("transaction_id", .str transaction_id)] ∧
    (Transaction.from_dict transaction_id content timestamp device_id).content = content ∧
    (Transaction.from_dict transaction_id content timestamp device_id).timestamp = timestamp ∧
    (Transaction.from_dict transaction_id content timestamp device_id).device_id = device_id ∧
    (Transaction.make content timestamp device_id).transaction_id =
      sha256hex (Json.render (.obj [("content", content), ("device_id", optStr device_id),
                                    ("timestamp", .int timestamp)])) :=
  ⟨rfl, rfl, rfl, rfl, rfl, rfl⟩

/-! ## Claim C7 -/

/-- C7.  With fewer than 10 blocks `adjust_difficulty` returns the difficulty
unchanged; otherwise it averages the 9 inter-block differences over the most
recent 10 blocks and widens by exactly 1 below `0.8 * target`, narrows by
exactly 1 — floored at 1 — above `1.2 * target`, and otherwise leaves the
difficulty unchanged, returning the result. -/
theorem C7_adjust_difficulty_spec (bc : Blockchain) (target : ℚ) :
    (bc.chain.length < 10 → bc.adjust_difficulty target = (bc.difficulty, bc)) ∧
    (10 ≤ bc.chain.length →
      (interTimes bc).length = 9 ∧
      (avgTime bc < ratMul target (Rat.divInt 8 10) →
        bc.adjust_difficulty target =
          (bc.difficulty + 1, { bc with difficulty := bc.difficulty + 1 })) ∧
      (¬ avgTime bc < ratMul target (Rat.divInt 8 10) →
        avgTime bc > ratMul target (Rat.divInt 12 10) →
        bc.adjust_difficulty target =
          (max 1 (bc.difficulty - 1), { bc with difficulty := max 1 (bc.difficulty - 1) }) ∧
        1 ≤ (bc.adjust_difficulty target).1 ∧
        (2 ≤ bc.difficulty → (bc.adjust_difficulty target).1 = bc.difficulty - 1)) ∧
      (¬ avgTime bc < ratMul target (Rat.divInt 8 10) →
        ¬ avgTime bc > ratMul target (Rat.divInt 12 10) →
        bc.adjust_difficulty target = (bc.difficulty, bc))) := by
  constructor
  · intro hlen
    rw [Blockchain.adjust_difficulty, if_pos hlen]
  · intro hlen
    have hnot : ¬ bc.chain.length < 10 := by omega
    refine ⟨?_, ?_, ?_, ?_⟩
    · rw [interTimes]
      have hrec : (bc.chain.drop (bc.chain.length - 10)).length = 10 := by
        rw [List.length_drop]
        omega
      simp only [List.length_map, List.length_zip, List.length_tail, hrec]
      omega
    · intro hfast
      rw [Blockchain.adjust_difficulty, if_neg hnot, if_pos hfast]
    · intro hnfast hslow
      rw [Blockchain.adjust_difficulty, if_neg hnot, if_neg hnfast, if_pos hslow]
      refine ⟨rfl, by omega, fun h2 => ?_⟩
      show max 1 (bc.difficulty - 1) = bc.difficulty - 1
      omega
    · intro hnfast hnslow
      rw [Blockchain.adjust_difficulty, if_neg hnot, if_neg hnfast, if_neg hnslow]

/-- Ten blocks one second apart: well below a target of 10. -/
def bcFast : Blockchain :=
  { Blockchain.init 5 1 with
    chain := (List.range 10).map (fun i => Block.from_dict i i (.obj []) "" "" 0 "") }

/-- Ten blocks a hundred seconds apart: well above a target of 10. -/
def bcSlow : Blockchain :=
  { Blockchain.init 5 1 with
    chain := (List.range 10).map (fun i => Block.from_dict i (100 * i) (.obj []) "" "" 0 "") }

/-- Witness for C7: average 1 at target 10 raises difficulty 5 to 6; average
100 lowers it to 4. -/
theorem C7_witness :
    (bcFast.adjust_difficulty 10).1 = 6 ∧ (bcSlow.adjust_difficulty 10).1 = 4 ∧
    bcFast.chain.length = 10 := by
  have hf := (C7_adjust_difficulty_spec bcFast 10).2 (by decide)
  have hs := (C7_adjust_difficulty_spec bcSlow 10).2 (by decide)
  have h1 := hf.2.1 (by decide)
  have h2 := (hs.2.2.1 (by decide) (by decide)).2.2 (by decide)
  refine ⟨?_, ?_, rfl⟩
  · rw [h1]
    rfl
  · rw [h2]
    rfl

/-! ## The bounded `ProofOfWork.mine_block` search -/

/-- An exhausted search leaves the block's hash (and all fields except the
nonce) untouched, leaves the nonce at the last value tried, and has tried
every nonce in the window without the difficulty check passing. -/
theorem powSearch_none_spec (d : Nat) : ∀ (fuel nonce : Nat) (b out : Block),
    powSearch d fuel nonce b = (none, out) →
    out.hash = b.hash ∧ out.index = b.index ∧ out.timestamp = b.timestamp ∧
    out.data = b.data ∧ out.previous_hash = b.previous_hash ∧
    out.device_id = b.device_id ∧
    out = { b with nonce := out.nonce } ∧
    (fuel = 0 → out = b) ∧
    (1 ≤ fuel → out.nonce = nonce + fuel - 1) ∧
    (∀ k < fuel, ProofOfWork.check_difficulty
      (Block.calculate_hash { b with nonce := nonce + k }) d = false) := by
  intro fuel
  induction fuel with
  | zero =>
    intro nonce b out h
    rw [powSearch] at h
    simp only [Prod.mk.injEq] at h
    obtain ⟨-, hout⟩ := h
    subst hout
    exact ⟨rfl, rfl, rfl, rfl, rfl, rfl, rfl, fun _ => rfl, fun h1 => absurd h1 (by omega),
      fun k hk => absurd hk (by omega)⟩
  | succ n ih =>
    intro nonce b out h
    rw [powSearch] at h
    by_cases hc : ProofOfWork.check_difficulty
        (Block.calculate_hash { b with nonce := nonce }) d = true
    · rw [if_pos hc] at h
      simp at h
    · rw [if_neg hc] at h
      have hr := ih (nonce + 1) { b with nonce := nonce } out h
      have hcol : ∀ m : Nat, ({ { b with nonce := nonce } with nonce := m } : Block) =
          { b with nonce := m } := fun _ => rfl
      refine ⟨hr.1, hr.2.1, hr.2.2.1, hr.2.2.2.1, hr.2.2.2.2.1, hr.2.2.2.2.2.1, ?_,
        fun h0 => absurd h0 (by omega), ?_, ?_⟩
      · rw [hr.2.2.2.2.2.2.1, hcol]
      · intro _
        cases n with
        | zero =>
          have := hr.2.2.2.2.2.2.2.1 rfl
          subst this
          show nonce = nonce + (0 + 1) - 1
          omega
        | succ m =>
          have := hr.2.2.2.2.2.2.2.2.1 (by omega)
          rw [this]
          omega
      · intro k hk
        cases k with
        | zero =>
          simpa using (by simpa using hc : ProofOfWork.check_difficulty
            (Block.calculate_hash { b with nonce := nonce }) d = false)
        | succ j =>
          have := hr.2.2.2.2.2.2.2.2.2 j (by omega)
          rw [hcol] at this
          have harith : nonce + 1 + j = nonce + (j + 1) := by omega
          rw [harith] at this
          exact this

/-- A successful search returns the first qualifying nonce in the window,
its hash, and the block updated to exactly that nonce and hash. -/
theorem powSearch_some_spec (d : Nat) : ∀ (fuel nonce : Nat) (b : Block) (n : Nat)
    (hs : String) (out : Block),
    powSearch d fuel nonce b = (some (n, hs), out) →
    nonce ≤ n ∧ n < nonce + fuel ∧
    hs = Block.calculate_hash { b with nonce := n } ∧
    ProofOfWork.check_difficulty hs d = true ∧
    out = { b with nonce := n, hash := hs } ∧
    (∀ m, nonce ≤ m → m < n → ProofOfWork.check_difficulty
      (Block.calculate_hash { b with nonce := m }) d = false) := by
  intro fuel
  induction fuel with
  | zero =>
    intro nonce b n hs out h
    rw [powSearch] at h
    simp at h
  | succ k ih =>
    intro nonce b n hs out h
    rw [powSearch] at h
    by_cases hc : ProofOfWork.check_difficulty
        (Block.calculate_hash { b with nonce := nonce }) d = true
    · rw [if_pos hc] at h
      simp only [Prod.mk.injEq, Option.some.injEq] at h
      obtain ⟨⟨hn, hh⟩, hout⟩ := h
      subst hn
      subst hh
      subst hout
      exact ⟨Nat.le_refl _, by omega, rfl, hc, rfl,
        fun m hm1 hm2 => absurd (Nat.lt_of_le_of_lt hm1 hm2) (Nat.lt_irrefl _)⟩
    · rw [if_neg hc] at h
      have hr := ih (nonce + 1) { b with nonce := nonce } n hs out h
      have hcol : ∀ m : Nat, ({ { b with nonce := nonce } with nonce := m } : Block) =
          { b with nonce := m } := fun _ => rfl
      have hcol2 : ({ { b with nonce := nonce } with nonce := n, hash := hs } : Block) =
          { b with nonce := n, hash := hs } := rfl
      refine ⟨by omega, by omega, by rw [hr.2.2.1, hcol], hr.2.2.2.1,
        by rw [hr.2.2.2.2.1, hcol2], ?_⟩
      intro m hm1 hm2
      rcases Nat.eq_or_lt_of_le hm1 with hm | hm
      · subst hm
        simpa using hc
      · have := hr.2.2.2.2.2 m hm hm2
        rw [hcol] at this
        exact this

/-! ## Claim C8 -/

/-- C8 (amended).  `ProofOfWork.mine_block(block, max_nonce)` searches nonces
0, 1, … strictly below `max_nonce`.  On exhaustion it returns, without
raising, `(False, max_nonce, None, elapsed)` — the nonce reported is
`max_nonce`, one past the last nonce tried — and leaves the statistics
untouched.  On success it returns the winning nonce (below `max_nonce`, every
smaller nonce having failed the check), writes the winning hash into the
block, reports that hash, bumps `blocks_mined`/`total_time`, recomputes the
average, and appends the difficulty used to the rolling window capped at 10
entries with the oldest dropped.  (The unamended claim said the failure
result carries the last nonce tried; the code's loop variable has already
been incremented past it — see the counterexample.) -/
theorem C8_bounded_search (pow : ProofOfWork) (b : Block) (mx : Nat) (t : ℚ)
    (r : MineResult) (b' : Block) (pow' : ProofOfWork)
    (h : pow.mine_block b mx t = (r, b', pow')) :
    (r.success = false →
      r = ⟨false, mx, none, t⟩ ∧ pow' = pow ∧
      (∀ k < mx, ProofOfWork.check_difficulty
        (Block.calculate_hash { b with nonce := k }) pow.difficulty = false)) ∧
    (r.success = true →
      r.time_taken = t ∧ r.nonce < mx ∧ r.hash = some b'.hash ∧ b'.nonce = r.nonce ∧
      b'.hash = b'.calculate_hash ∧
      ProofOfWork.check_difficulty b'.hash pow.difficulty = true ∧
      b'.index = b.index ∧ b'.timestamp = b.timestamp ∧ b'.data = b.data ∧
      b'.previous_hash = b.previous_hash ∧ b'.device_id = b.device_id ∧
      (∀ m < r.nonce, ProofOfWork.check_difficulty
        (Block.calculate_hash { b with nonce := m }) pow.difficulty = false) ∧
      pow'.difficulty = pow.difficulty ∧ pow'.target_time = pow.target_time ∧
      pow'.mining_stats.blocks_mined = pow.mining_stats.blocks_mined + 1 ∧
      pow'.mining_stats.total_time = pow.mining_stats.total_time + t ∧
      pow'.mining_stats.average_time =
        pow'.mining_stats.total_time / (pow'.mining_stats.blocks_mined : ℚ) ∧
      pow'.mining_stats.last_difficulties =
        (if (pow.mining_stats.last_difficulties ++ [pow.difficulty]).length > 10
         then (pow.mining_stats.last_difficulties ++ [pow.difficulty]).drop 1
         else pow.mining_stats.last_difficulties ++ [pow.difficulty]) ∧
      (pow.mining_stats.last_difficulties.length ≤ 10 →
        pow'.mining_stats.last_difficulties.length ≤ 10)) := by
  rw [ProofOfWork.mine_block] at h
  cases hps : powSearch pow.difficulty mx 0 b with
  | mk o bout =>
    rw [hps] at h
    cases o with
    | none =>
      simp only [Prod.mk.injEq] at h
      obtain ⟨hr, hb, hp⟩ := h
      subst hr; subst hb; subst hp
      have hn := powSearch_none_spec pow.difficulty mx 0 b bout hps
      refine ⟨fun _ => ⟨rfl, rfl, fun k hk => by simpa using hn.2.2.2.2.2.2.2.2.2 k hk⟩,
        fun htrue => by simp at htrue⟩
    | some p =>
      cases p with
      | mk n hsh =>
        simp only [Prod.mk.injEq] at h
        obtain ⟨hr, hb, hp⟩ := h
        subst hr; subst hb; subst hp
        have hsp := powSearch_some_spec pow.difficulty mx 0 b n hsh bout hps
        refine ⟨fun hfalse => by simp at hfalse, fun _ => ?_⟩
        have hout : bout = { b with nonce := n, hash := hsh } := hsp.2.2.2.2.1
        have hbh : bout.hash = hsh := by rw [hout]
        have hcalc : bout.hash = bout.calculate_hash := by
          rw [hout, hsp.2.2.1]
          rfl
        refine ⟨rfl, by simpa using hsp.2.1, by rw [hbh], by rw [hout], hcalc,
          by rw [hbh]; exact hsp.2.2.2.1,
          by rw [hout], by rw [hout], by rw [hout], by rw [hout], by rw [hout],
          fun m hm => by simpa using hsp.2.2.2.2.2 m (Nat.zero_le m) hm,
          rfl, rfl, rfl, rfl, rfl, rfl, ?_⟩
        intro hlen
        show (if (pow.mining_stats.last_difficulties ++ [pow.difficulty]).length > 10
          then (pow.mining_stats.last_difficulties ++ [pow.difficulty]).drop 1
          else pow.mining_stats.last_difficulties ++ [pow.difficulty]).length ≤ 10
        split
        · rename_i hgt
          simp only [List.length_drop, List.length_append, List.length_singleton] at hgt ⊢
          omega
        · rename_i hle
          simp only [List.length_append, List.length_singleton] at hle ⊢
          omega

/-- The difficulty-4 engine used for the bounded-search counterexamples. -/
def powHard : ProofOfWork := ProofOfWork.init 4 10 (Rat.divInt 1 5)

/-- A fresh block none of whose first three nonces meets difficulty 4. -/
def blockC8 : Block := Block.make 0 50 (.obj []) "0" "c8"

/-- Counterexample to C8 as stated: exhausting `max_nonce = 3` returns nonce
3 in the result while the last nonce actually tried (left in the block) is
2. -/
theorem C8_counterexample :
    (powHard.mine_block blockC8 3 1).1 = ⟨false, 3, none, 1⟩ ∧
    ((powHard.mine_block blockC8 3 1).2.1).nonce = 2 := by
  constructor
  · decide
  · decide

/-- A fresh block whose nonce-0 hash already meets difficulty 0. -/
def blockC8w : Block := Block.make 0 51 (.obj []) "0" "c8w"

/-- The difficulty-0 engine, with a full rolling window, for the success
path. -/
def powEasy : ProofOfWork :=
  { ProofOfWork.init 0 10 (Rat.divInt 1 5) with
    mining_stats := ⟨3, 6, 2, [1, 1, 1, 1, 1, 2, 2, 2, 2, 2]⟩ }

/-- Witness for C8: a failure outcome at difficulty 4 and a success outcome
at difficulty 0 (which bumps the statistics and rolls the full window). -/
theorem C8_witness :
    (powHard.mine_block blockC8 3 1).1 = ⟨false, 3, none, 1⟩ ∧
    (powHard.mine_block blockC8 3 1).2.2 = powHard ∧
    (powEasy.mine_block blockC8w 5 1).1.success = true ∧
    ((powEasy.mine_block blockC8w 5 1).2.2).mining_stats.blocks_mined = 4 ∧
    ((powEasy.mine_block blockC8w 5 1).2.2).mining_stats.last_difficulties =
      [1, 1, 1, 1, 2, 2, 2, 2, 2, 0] ∧
    ((powEasy.mine_block blockC8w 5 1).2.2).mining_stats.last_difficulties.length ≤ 10 := by
  have h1 := C8_bounded_search powHard blockC8 3 1 (powHard.mine_block blockC8 3 1).1
    ((powHard.mine_block blockC8 3 1).2.1) ((powHard.mine_block blockC8 3 1).2.2) rfl
  have h2 := C8_bounded_search powEasy blockC8w 5 1 (powEasy.mine_block blockC8w 5 1).1
    ((powEasy.mine_block blockC8w 5 1).2.1) ((powEasy.mine_block blockC8w 5 1).2.2) rfl
  have hfail := h1.1 (by decide)
  have hsucc := h2.2 (by rfl)
  refine ⟨hfail.1, hfail.2.1, by rfl, ?_, ?_, ?_⟩
  · rw [h2.2 (by rfl) |>.2.2.2.2.2.2.2.2.2.2.2.2.2.2.1]
    rfl
  · rw [hsucc.2.2.2.2.2.2.2.2.2.2.2.2.2.2.2.2.2.1]
    rfl
  · exact hsucc.2.2.2.2.2.2.2.2.2.2.2.2.2.2.2.2.2.2 (by decide)

/-! ## Claim C9 -/

/-- C9 (amended).  When the bounded search fails with `max_nonce ≥ 1`, the
block is not restored: its nonce has been overwritten with `max_nonce - 1`
while its hash is unchanged, so a block that was valid before the call fails
`is_valid()` afterwards whenever the hash recomputed at nonce `max_nonce - 1`
differs from the stored hash — in particular whenever its prior nonce
differed from `max_nonce - 1`, barring a SHA-256 collision.  (If the prior
nonce already was `max_nonce - 1` the block is returned bit-for-bit unchanged
and stays valid, which is the one case the unamended claim gets wrong — see
the counterexample.) -/
theorem C9_failure_not_atomic (pow : ProofOfWork) (b : Block) (mx : Nat) (t : ℚ)
    (r : MineResult) (b' : Block) (pow' : ProofOfWork)
    (h : pow.mine_block b mx t = (r, b', pow'))
    (hmx : 1 ≤ mx) (hf : r.success = false) :
    b'.nonce = mx - 1 ∧ b'.hash = b.hash ∧ b'.index = b.index ∧
    b'.timestamp = b.timestamp ∧ b'.data = b.data ∧
    b'.previous_hash = b.previous_hash ∧ b'.device_id = b.device_id ∧
    (Block.calculate_hash { b with nonce := mx - 1 } ≠ b.hash → b'.is_valid = false) ∧
    (b.nonce = mx - 1 → b' = b) := by
  rw [ProofOfWork.mine_block] at h
  cases hps : powSearch pow.difficulty mx 0 b with
  | mk o bout =>
    rw [hps] at h
    cases o with
    | some p =>
      cases p
      simp only [Prod.mk.injEq] at h
      obtain ⟨hr, -, -⟩ := h
      rw [← hr] at hf
      simp at hf
    | none =>
      simp only [Prod.mk.injEq] at h
      obtain ⟨-, hb, -⟩ := h
      subst hb
      have hn := powSearch_none_spec pow.difficulty mx 0 b bout hps
      have hnonce : bout.nonce = mx - 1 := by
        have := hn.2.2.2.2.2.2.2.2.1 hmx
        omega
      have hstruct : bout = { b with nonce := mx - 1 } := by
        rw [hn.2.2.2.2.2.2.1, hnonce]
      refine ⟨hnonce, hn.1, hn.2.1, hn.2.2.1, hn.2.2.2.1, hn.2.2.2.2.1, hn.2.2.2.2.2.1,
        ?_, ?_⟩
      · intro hdiff
        have hch : bout.calculate_hash = Block.calculate_hash { b with nonce := mx - 1 } := by
          rw [hstruct]
        rw [Block.is_valid, hn.1, hch]
        simp only [beq_eq_false_iff_ne, ne_eq]
        intro heq
        exact hdiff heq.symm
      · intro hbn
        rw [hstruct, ← hbn]

/-- A fresh valid block whose nonce is already `max_nonce - 1 = 0`. -/
def blockC9 : Block := Block.make 0 60 (.obj []) "0" "c9"

/-- Counterexample to C9 as stated: a failed call with `max_nonce = 1` on a
fresh valid block with nonce 0 returns it unchanged — it still satisfies
`is_valid()`. -/
theorem C9_counterexample :
    (powHard.mine_block blockC9 1 1).1.success = false ∧
    blockC9.is_valid = true ∧
    (powHard.mine_block blockC9 1 1).2.1 = blockC9 ∧
    ((powHard.mine_block blockC9 1 1).2.1).is_valid = true := by
  have hv : blockC9.is_valid = true := (is_valid_iff blockC9).mpr (make_hash_eq _ _ _ _ _)
  have he : (powHard.mine_block blockC9 1 1).2.1 = blockC9 := rfl
  exact ⟨by decide, hv, he, by rw [he]; exact hv⟩

/-- A fresh valid block mined with `max_nonce = 2`: both nonces fail, the
nonce is left at 1. -/
def blockC9w : Block := Block.make 0 61 (.obj []) "0" "c9w"

/-- Witness for C9: after the failed call the block's nonce is 1, its hash is
the stale nonce-0 hash, and `is_valid()` has become false. -/
theorem C9_witness :
    ((powHard.mine_block blockC9w 2 1).2.1).nonce = 1 ∧
    ((powHard.mine_block blockC9w 2 1).2.1).hash = blockC9w.hash ∧
    blockC9w.is_valid = true ∧
    ((powHard.mine_block blockC9w 2 1).2.1).is_valid = false := by
  have h := C9_failure_not_atomic powHard blockC9w 2 1
    (powHard.mine_block blockC9w 2 1).1 ((powHard.mine_block blockC9w 2 1).2.1)
    ((powHard.mine_block blockC9w 2 1).2.2) rfl (by omega) (by decide)
  exact ⟨h.1, h.2.1, (is_valid_iff blockC9w).mpr (make_hash_eq _ _ _ _ _),
    h.2.2.2.2.2.2.2.1 (by decide)⟩

/-! ## Claim C5 -/

/-- Invariant-carrying specification of the `for node in self.nodes` loop of
`resolve_conflicts`: the final candidate, if any, is a nonempty valid chain
of length equal to the final `max_length`; a `none` outcome means nothing was
ever adopted; `max_length` never decreases; every valid fetched chain is
bounded by the final `max_length`; an adopted candidate persists; and a
changed candidate means `max_length` strictly grew. -/
theorem resolveScan_spec (f : String → List Block) :
    ∀ (nodes : List String) (maxLen : Nat) (best : Option (List Block)),
      (∀ c, best = some c →
        c ≠ [] ∧ (tempBlockchain c).is_chain_valid = true ∧ c.length = maxLen) →
      (∀ c, (resolveScan f nodes maxLen best).2 = some c →
        c ≠ [] ∧ (tempBlockchain c).is_chain_valid = true ∧
        c.length = (resolveScan f nodes maxLen best).1 ∧
        (best = some c ∨ ∃ nd ∈ nodes, f nd = c)) ∧
      ((resolveScan f nodes maxLen best).2 = none →
        best = none ∧ (resolveScan f nodes maxLen best).1 = maxLen ∧
        ∀ nd ∈ nodes,
          ¬((f nd).length > maxLen ∧ (tempBlockchain (f nd)).is_chain_valid = true)) ∧
      maxLen ≤ (resolveScan f nodes maxLen best).1 ∧
      (∀ nd ∈ nodes, (tempBlockchain (f nd)).is_chain_valid = true →
        (f nd).length ≤ (resolveScan f nodes maxLen best).1) ∧
      (best ≠ none → (resolveScan f nodes maxLen best).2 ≠ none) ∧
      ((resolveScan f nodes maxLen best).2 ≠ best →
        maxLen < (resolveScan f nodes maxLen best).1) := by
  intro nodes
  induction nodes with
  | nil =>
    intro maxLen best hinv
    refine ⟨fun c hc => ?_, fun hn => ⟨hn, rfl, by simp⟩, Nat.le_refl _, by simp,
      fun hb => hb, fun hne => absurd rfl hne⟩
    obtain ⟨h1, h2, h3⟩ := hinv c hc
    exact ⟨h1, h2, h3, Or.inl hc⟩
  | cons nd rest ih =>
    intro maxLen best hinv
    rw [resolveScan]
    by_cases hcond : (f nd).isEmpty = false ∧ (f nd).length > maxLen ∧
        (tempBlockchain (f nd)).is_chain_valid = true
    · rw [if_pos hcond]
      have hinv2 : ∀ c, (some (f nd) : Option (List Block)) = some c →
          c ≠ [] ∧ (tempBlockchain c).is_chain_valid = true ∧ c.length = (f nd).length := by
        intro c hc
        cases hc
        refine ⟨?_, hcond.2.2, rfl⟩
        intro hemp
        rw [hemp] at hcond
        simp at hcond
      have hr := ih (f nd).length (some (f nd)) hinv2
      refine ⟨fun c hc => ?_, fun hn => ?_, ?_, ?_, fun _ => ?_, fun _ => ?_⟩
      · obtain ⟨h1, h2, h3, h4⟩ := hr.1 c hc
        refine ⟨h1, h2, h3, Or.inr ?_⟩
        rcases h4 with h4 | ⟨nd', hnd', he⟩
        · exact ⟨nd, by simp, Option.some.inj h4⟩
        · exact ⟨nd', by simp [hnd'], he⟩
      · exact absurd hn (hr.2.2.2.2.1 (by simp))
      · exact Nat.le_trans (Nat.le_of_lt hcond.2.1) hr.2.2.1
      · intro nd' hnd' hv
        rcases List.mem_cons.mp hnd' with he | hm
        · subst he
          exact hr.2.2.1
        · exact hr.2.2.2.1 nd' hm hv
      · exact hr.2.2.2.2.1 (by simp)
      · exact Nat.lt_of_lt_of_le hcond.2.1 hr.2.2.1
    · rw [if_neg hcond]
      have hr := ih maxLen best hinv
      have hndfail : ¬((f nd).length > maxLen ∧
          (tempBlockchain (f nd)).is_chain_valid = true) := by
        intro ⟨hl, hv⟩
        refine hcond ⟨?_, hl, hv⟩
        cases hfe : (f nd) with
        | nil => rw [hfe] at hl; simp at hl
        | cons a as => rfl
      refine ⟨fun c hc => ?_, fun hn => ?_, hr.2.2.1, ?_, hr.2.2.2.2.1, hr.2.2.2.2.2⟩
      · obtain ⟨h1, h2, h3, h4⟩ := hr.1 c hc
        refine ⟨h1, h2, h3, ?_⟩
        rcases h4 with h4 | ⟨nd', hnd', he⟩
        · exact Or.inl h4
        · exact Or.inr ⟨nd', by simp [hnd'], he⟩
      · obtain ⟨h1, h2, h3⟩ := hr.2.1 hn
        refine ⟨h1, h2, fun nd' hnd' => ?_⟩
        rcases List.mem_cons.mp hnd' with he | hm
        · subst he
          exact hndfail
        · exact h3 nd' hm
      · intro nd' hnd' hv
        rcases List.mem_cons.mp hnd' with he | hm
        · subst he
          by_cases hl : (f nd').length > maxLen
          · exact absurd ⟨hl, hv⟩ hndfail
          · exact Nat.le_trans (Nat.le_of_not_lt hl) hr.2.2.1
        · exact hr.2.2.2.1 nd' hm hv

/-- Only the accessor's answers on registered peers matter. -/
theorem resolveScan_congr (f g : String → List Block) :
    ∀ (nodes : List String) (maxLen : Nat) (best : Option (List Block)),
      (∀ nd ∈ nodes, f nd = g nd) →
      resolveScan f nodes maxLen best = resolveScan g nodes maxLen best := by
  intro nodes
  induction nodes with
  | nil => intro _ _ _; rfl
  | cons nd rest ih =>
    intro maxLen best hfg
    rw [resolveScan, resolveScan, hfg nd (by simp)]
    split
    · exact ih _ _ (fun nd' h => hfg nd' (by simp [h]))
    · exact ih _ _ (fun nd' h => hfg nd' (by simp [h]))

/-- C5.  `resolve_conflicts` returns `True` exactly when it adopts a chain:
the adopted chain was fetched from a registered peer, is nonempty and valid
under the scratch instance's checks, is strictly longer than the local chain,
is at least as long as every valid fetched chain, and replaces the local
chain wholesale; on `False` the state is returned unchanged and no fetched
chain both exceeds the local length and is valid.  The outcome depends only
on the accessor's answers on the registered peers. -/
theorem C5_resolve_conflicts (bc : Blockchain) (f : String → List Block) :
    ((bc.resolve_conflicts f).1 = false →
      (bc.resolve_conflicts f).2 = bc ∧
      ∀ nd ∈ bc.nodes,
        ¬((f nd).length > bc.chain.length ∧
          (tempBlockchain (f nd)).is_chain_valid = true)) ∧
    ((bc.resolve_conflicts f).1 = true →
      ∃ c, (∃ nd ∈ bc.nodes, f nd = c) ∧
        (tempBlockchain c).is_chain_valid = true ∧
        c.length > bc.chain.length ∧
        (bc.resolve_conflicts f).2 = { bc with chain := c } ∧
        ∀ nd ∈ bc.nodes, (tempBlockchain (f nd)).is_chain_valid = true →
          (f nd).length ≤ c.length) ∧
    (∀ g : String → List Block, (∀ nd ∈ bc.nodes, f nd = g nd) →
      bc.resolve_conflicts f = bc.resolve_conflicts g) := by
  have hspec := resolveScan_spec f bc.nodes bc.chain.length none (by simp)
  refine ⟨?_, ?_, ?_⟩
  · intro hfalse
    rw [Blockchain.resolve_conflicts] at hfalse ⊢
    cases hrs : resolveScan f bc.nodes bc.chain.length none with
    | mk m' best' =>
      rw [hrs] at hfalse hspec
      cases best' with
      | some c => simp at hfalse
      | none =>
        have h2 := hspec.2.1 rfl
        exact ⟨rfl, h2.2.2⟩
  · intro htrue
    rw [Blockchain.resolve_conflicts] at htrue ⊢
    cases hrs : resolveScan f bc.nodes bc.chain.length none with
    | mk m' best' =>
      rw [hrs] at htrue hspec
      cases best' with
      | none => simp at htrue
      | some c =>
        have h1 := hspec.1 c rfl
        have hgrow := hspec.2.2.2.2.2 (by simp)
        have hmax := hspec.2.2.2.1
        refine ⟨c, ?_, h1.2.1, ?_, rfl, ?_⟩
        · rcases h1.2.2.2 with h | h
          · cases h
          · exact h
        · rw [h1.2.2.1]
          exact hgrow
        · intro nd hnd hv
          rw [h1.2.2.1]
          exact hmax nd hnd hv
  · intro g hfg
    rw [Blockchain.resolve_conflicts, Blockchain.resolve_conflicts,
      resolveScan_congr f g bc.nodes bc.chain.length none hfg]

/-! Concrete reconciliation scenario: peer chains of length 7 and 5 mined
offline at difficulty 3 (every non-genesis stored hash is the true SHA-256
digest of the block's serialization and starts with `"000"`), a length-3
chain whose block 1 has a corrupted stored hash, and a length-4 local chain
of unvalidated filler blocks. -/

def chain7b0 : Block := Block.from_dict 0 100 (.obj []) "0" "p7" 0 "2fab27a4331789069cf744b92cbb05be7607287597944de22eb8090300cd7eb0"

def chain7b1 : Block := Block.from_dict 1 101 (.obj []) "2fab27a4331789069cf744b92cbb05be7607287597944de22eb8090300cd7eb0" "p7" 1198 "00021c8760733f26e94564df5af4ab4ff01d655044161b93c648d26bc1f5f8b5"

def chain7b2 : Block := Block.from_dict 2 102 (.obj []) "00021c8760733f26e94564df5af4ab4ff01d655044161b93c648d26bc1f5f8b5" "p7" 2275 "00079f8dff03bbc96a764b2970aa032f57f2fe833630a9b7198ef5c8fa25e852"

def chain7b3 : Block := Block.from_dict 3 103 (.obj []) "00079f8dff03bbc96a764b2970aa032f57f2fe833630a9b7198ef5c8fa25e852" "p7" 3718 "00039424560ff7446f448285cbe1d07f912fdbe109e0e2be88b620eb3893bb9b"

def chain7b4 : Block := Block.from_dict 4 104 (.obj []) "00039424560ff7446f448285cbe1d07f912fdbe109e0e2be88b620eb3893bb9b" "p7" 387 "000d25085cf2fb03ab5a6f2703ca507aa81d4ef869e5e8e6be9b36e2c194e5d0"

def chain7b5 : Block := Block.from_dict 5 105 (.obj []) "000d25085cf2fb03ab5a6f2703ca507aa81d4ef869e5e8e6be9b36e2c194e5d0" "p7" 3422 "0009edc21b3a0136369980981ba4a08f6a69ff81935d6c83184f60e13a8a0b65"

def chain7b6 : Block := Block.from_dict 6 106 (.obj []) "0009edc21b3a0136369980981ba4a08f6a69ff81935d6c83184f60e13a8a0b65" "p7" 7372 "000a4c86e8f62d8a2bbf9844c43120172185dd5e25fd07cfb0208c62fa9d9de8"

def chain7 : List Block := [chain7b0, chain7b1, chain7b2, chain7b3, chain7b4, chain7b5, chain7b6]

def chain5b0 : Block := Block.from_dict 0 200 (.obj []) "0" "p5" 0 "a793ac80ed0ff689e3425c82a026d87c10c4e9504969984f9c87ed4fdd48389d"

def chain5b1 : Block := Block.from_dict 1 201 (.obj []) "a793ac80ed0ff689e3425c82a026d87c10c4e9504969984f9c87ed4fdd48389d" "p5" 4320 "00079c79d0b09a00df1c160df901ef3df7123d0efaf2dc587676c4f797fb7357"

def chain5b2 : Block := Block.from_dict 2 202 (.obj []) "00079c79d0b09a00df1c160df901ef3df7123d0efaf2dc587676c4f797fb7357" "p5" 8312 "000af72688ef9ca34e3a2063774ff4ae62f43665a5b0b19c89507ebaa4a10974"

def chain5b3 : Block := Block.from_dict 3 203 (.obj []) "000af72688ef9ca34e3a2063774ff4ae62f43665a5b0b19c89507ebaa4a10974" "p5" 658 "000d4ce9c3def0155ddb1083f8575f1ebfd82dde77ca1e1243bb5b7b12863039"

def chain5b4 : Block := Block.from_dict 4 204 (.obj []) "000d4ce9c3def0155ddb1083f8575f1ebfd82dde77ca1e1243bb5b7b12863039" "p5" 9651 "0001806bace609480284ea3ad86cef389515a16fa662b033664ace29096bddbe"

def chain5 : List Block := [chain5b0, chain5b1, chain5b2, chain5b3, chain5b4]

def chain3b0 : Block := Block.from_dict 0 300 (.obj []) "0" "p3" 0 "dd42a2104c7f18cdb554032da118bee9a8dbb7e057ea03391fb5a8350691a61b"

def chain3b1 : Block := Block.from_dict 1 301 (.obj []) "dd42a2104c7f18cdb554032da118bee9a8dbb7e057ea03391fb5a8350691a61b" "p3" 7980 "deadbeefc4e84f55c7d0d1b28271e02267ff6b7649c6974f25406271cdfc721d"

def chain3b2 : Block := Block.from_dict 2 302 (.obj []) "deadbeefc4e84f55c7d0d1b28271e02267ff6b7649c6974f25406271cdfc721d" "p3" 13351 "0004bd8f7ead26aeeb8f318e042b759163106a12972e75d538f1a08ac216fa60"

def chain3 : List Block := [chain3b0, chain3b1, chain3b2]

def localb0 : Block := Block.from_dict 0 400 (.obj []) "0" "loc" 0 "L0"

def localb1 : Block := Block.from_dict 1 401 (.obj []) "x" "loc" 0 "L1"

def localb2 : Block := Block.from_dict 2 402 (.obj []) "x" "loc" 0 "L2"

def localb3 : Block := Block.from_dict 3 403 (.obj []) "x" "loc" 0 "L3"

def localChain4 : List Block := [localb0, localb1, localb2, localb3]

/-- Local node with the length-4 chain and the three peers registered. -/
def bcScen : Blockchain :=
  ((({ Blockchain.init 3 1 with chain := localChain4 }).register_node "n3").register_node
    "n7").register_node "n5"

/-- The accessor serving the three peer chains. -/
def fetchA : String → List Block := fun nd =>
  if nd = "n3" then chain3 else if nd = "n7" then chain7
  else if nd = "n5" then chain5 else []

/-- Local node knowing only the peer with the invalid length-3 chain. -/
def bcScenB : Blockchain :=
  ({ Blockchain.init 3 1 with chain := localChain4 }).register_node "n3"

def fetchB : String → List Block := fun _ => chain3

set_option maxHeartbeats 8000000 in
theorem chain7_valid : (tempBlockchain chain7).is_chain_valid = true := by decide

set_option maxHeartbeats 8000000 in
theorem chain5_valid : (tempBlockchain chain5).is_chain_valid = true := by decide

set_option maxHeartbeats 8000000 in
theorem chain3_invalid : (tempBlockchain chain3).is_chain_valid = false := by decide

set_option maxHeartbeats 8000000 in
theorem scenA_adopts : (bcScen.resolve_conflicts fetchA).1 = true := by decide

theorem scenB_keeps : (bcScenB.resolve_conflicts fetchB).1 = false := by rfl

/-- Witness for C5: with peers holding chains of length 3 (invalid), 7
(valid) and 5 (valid) and a local chain of length 4, the length-7 chain is
adopted; with only the invalid length-3 alternative the local chain is
unchanged. -/
theorem C5_witness :
    (bcScen.resolve_conflicts fetchA).1 = true ∧
    (bcScen.resolve_conflicts fetchA).2.chain = chain7 ∧
    chain3.length = 3 ∧ chain5.length = 5 ∧ chain7.length = 7 ∧
    bcScen.chain.length = 4 ∧
    (tempBlockchain chain7).is_chain_valid = true ∧
    (tempBlockchain chain5).is_chain_valid = true ∧
    (tempBlockchain chain3).is_chain_valid = false ∧
    (bcScenB.resolve_conflicts fetchB).1 = false ∧
    (bcScenB.resolve_conflicts fetchB).2 = bcScenB := by
  have h7 := chain7_valid
  have h5 := chain5_valid
  have h3 := chain3_invalid
  have htrue := scenA_adopts
  have hB := (C5_resolve_conflicts bcScenB fetchB).1 scenB_keeps
  obtain ⟨c, ⟨nd, hnd, hfc⟩, hcv, hclen, hres, hmax⟩ :=
    (C5_resolve_conflicts bcScen fetchA).2.1 htrue
  have hnodes : bcScen.nodes = ["n3", "n7", "n5"] := rfl
  have h7max := hmax "n7" (by rw [hnodes]; simp) (by exact h7)
  have hceq : c = chain7 := by
    rw [hnodes] at hnd
    simp only [List.mem_cons, List.not_mem_nil, or_false] at hnd
    rcases hnd with h | h | h
    · exfalso
      rw [h] at hfc
      rw [← hfc] at hclen
      exact absurd hclen (by decide)
    · rw [h] at hfc
      exact hfc.symm.trans rfl
    · exfalso
      rw [h] at hfc
      rw [← hfc] at h7max
      exact absurd h7max (by decide)
  refine ⟨htrue, ?_, rfl, rfl, rfl, rfl, h7, h5, h3, scenB_keeps, hB.1⟩
  rw [hres]
  exact hceq

/-! ## Claim C10 -/

/-- C10.  A newly constructed chain state is empty in all three collections
for any difficulty argument; `create_genesis_block` builds an index-0 block
with `previous_hash = "0"` (and is invoked by no other `Blockchain` method —
in this embedding, as in the source, no other operation refers to it); and
on an empty chain `mine_pending_transactions` — with any pending pool,
including an empty one — produces the first block itself, at index 0 with
`previous_hash = "0"`, leaving the chain exactly `[b]`. -/
theorem C10_no_automatic_genesis :
    (∀ (d : Nat) (r : ℚ), (Blockchain.init d r).chain = [] ∧
      (Blockchain.init d r).pending_transactions = [] ∧ (Blockchain.init d r).nodes = []) ∧
    (∀ now : Int, (Blockchain.create_genesis_block now).index = 0 ∧
      (Blockchain.create_genesis_block now).previous_hash = "0") ∧
    (∀ (bc : Blockchain) (addr : String) (now : Int) (fuel : Nat) (b : Block)
        (bc' : Blockchain),
      bc.chain = [] →
      bc.mine_pending_transactions addr now fuel = some (b, bc') →
      b.index = 0 ∧ b.previous_hash = "0" ∧ bc'.chain = [b]) := by
  refine ⟨fun d r => ⟨rfl, rfl, rfl⟩, fun now => ⟨rfl, rfl⟩, ?_⟩
  intro bc addr now fuel b bc' hchain hmine
  obtain ⟨hml, hbc'⟩ := mine_pending_inv bc addr now fuel b bc' hmine
  have hs := mineLoop_spec bc.difficulty fuel _ b hml
  subst hbc'
  refine ⟨?_, ?_, ?_⟩
  · rw [hs.2.1]
    show bc.chain.length = 0
    rw [hchain]
    rfl
  · rw [hs.2.2.2.2.1]
    show (match bc.chain.getLast? with | some tip => tip.hash | none => "0") = "0"
    rw [hchain]
    rfl
  · show bc.chain ++ [b] = [b]
    rw [hchain]
    rfl

/-- The block mined on a completely fresh chain state with an empty pool. -/
def minedG : Block :=
  match (Blockchain.init 0 1).mine_pending_transactions "g" 5 0 with
  | some (b, _) => b
  | none => dummyBlock

/-- The chain state after that first mine. -/
def bcG : Blockchain :=
  match (Blockchain.init 0 1).mine_pending_transactions "g" 5 0 with
  | some (_, bc2) => bc2
  | none => Blockchain.init 0 1

/-- Witness for C10: the freshly constructed state is empty everywhere, and
its first block comes from `mine_pending_transactions` itself at index 0
with `previous_hash = "0"`, even with an empty pending pool. -/
theorem C10_witness :
    (Blockchain.init 0 1).chain = [] ∧
    (Blockchain.init 0 1).pending_transactions = [] ∧
    (Blockchain.init 0 1).nodes = [] ∧
    minedG.index = 0 ∧ minedG.previous_hash = "0" ∧ bcG.chain = [minedG] := by
  have h := C10_no_automatic_genesis.2.2 (Blockchain.init 0 1) "g" 5 0 minedG bcG rfl rfl
  exact ⟨rfl, rfl, rfl, h.1, h.2.1, h.2.2⟩

end LBC
